import Mathlib

/-!
Verification development for the in-memory filesystem (MemFS) of
fsprovider-sample/src/fileSystemProvider.ts.

The TypeScript classes File/Directory become the inductive type Entry.
The WeakMap from entries to their content (MemFS._data) is modelled as a
data field carried by every entry: an entry object is reachable at exactly
one tree position, so keying content by object identity is the same as
storing it on the node.  JS Map objects become association lists with
unique keys (set replaces in place or appends, delete removes the key's
binding).  Date.now() becomes an explicit now argument.  vscode.Uri is
modelled by its path string; the path.posix.basename and path.posix.dirname
helpers from Node are translated from their documented algorithms.
Numbers that the source can drive below zero (Directory.size) are Int.
Errors become the FsError enumeration, and throwing code returns Except.
-/

/-- File content: an opaque byte sequence (Uint8Array in the source). -/
abbrev Bytes := List Nat

/-- vscode.FileSystemError kinds thrown by MemFS. -/
inductive FsError where
  | entryNotFound
  | entryExists
  | entryNotADirectory
deriving DecidableEq, Repr

/-- vscode.FileChangeType. -/
inductive FileChangeType where
  | created
  | changed
  | deleted
deriving DecidableEq, Repr

/-- vscode.FileChangeEvent: a change kind plus the uri (path) it concerns. -/
structure Ev where
  type : FileChangeType
  uri : String
deriving DecidableEq, Repr

/-- The Entry union: class File (name, mtime, size) and class Directory
(name, mtime, size, entries).  Both carry the content the WeakMap MemFS._data
may associate with them (the source never restricts _data to files). -/
inductive Entry where
  | file (name : String) (mtime : Nat) (size : Int) (data : Option Bytes)
  | dir (name : String) (mtime : Nat) (size : Int) (data : Option Bytes)
      (entries : List (String × Entry))

/-- The name field of an entry. -/
def Entry.name : Entry → String
  | .file n _ _ _ => n
  | .dir n _ _ _ _ => n

/-- The mtime field of an entry. -/
def Entry.mtime : Entry → Nat
  | .file _ m _ _ => m
  | .dir _ m _ _ _ => m

/-- The size field of an entry. -/
def Entry.size : Entry → Int
  | .file _ _ s _ => s
  | .dir _ _ s _ _ => s

/-- The content associated with an entry through MemFS._data, if any. -/
def Entry.data : Entry → Option Bytes
  | .file _ _ _ d => d
  | .dir _ _ _ d _ => d

/-- entry instanceof Directory. -/
def Entry.isDir : Entry → Bool
  | .file _ _ _ _ => false
  | .dir _ _ _ _ _ => true

/-- The child mapping of a directory (empty for a file). -/
def entriesOf : Entry → List (String × Entry)
  | .file _ _ _ _ => []
  | .dir _ _ _ _ es => es

/-- Map.get on the child mapping. -/
def mapGet : List (String × Entry) → String → Option Entry
  | [], _ => none
  | (k', v) :: rest, k => if k' = k then some v else mapGet rest k

/-- Map.set: replace the binding in place if the key is present, else append. -/
def mapSet : List (String × Entry) → String → Entry → List (String × Entry)
  | [], k, v => [(k, v)]
  | (k', v') :: rest, k, v =>
      if k' = k then (k, v) :: rest else (k', v') :: mapSet rest k v

/-- Map.delete: remove the key's binding (keys are unique in a JS Map). -/
def mapDelete : List (String × Entry) → String → List (String × Entry)
  | [], _ => []
  | (k', v) :: rest, k =>
      if k' = k then mapDelete rest k else (k', v) :: mapDelete rest k

/-- In-place update of the value bound to a key, when present. -/
def mapUpdate : List (String × Entry) → String → (Entry → Entry) → List (String × Entry)
  | [], _, _ => []
  | (k', v) :: rest, k, f =>
      if k' = k then (k', f v) :: rest else (k', v) :: mapUpdate rest k f

/-- uri.path.split on the slash character (String.prototype.split). -/
def splitSlash : List Char → List Char → List String
  | [], acc => [String.mk acc.reverse]
  | c :: cs, acc =>
      if c = '/' then String.mk acc.reverse :: splitSlash cs []
      else splitSlash cs (c :: acc)

/-- The non-empty path segments: _lookup splits on slashes and skips the
falsy (empty) parts. -/
def pathSegs (p : String) : List String :=
  (splitSlash p.toList []).filter (fun s => s ≠ "")

/-- path.posix.basename: the last non-empty slash-separated segment, or the
empty string when there is none. -/
def basename (p : String) : String :=
  (pathSegs p).getLast?.getD ""

/-- The reverse index scan of Node's path.posix.dirname: starting from the
last character and never considering index 0, skip trailing slashes, then
skip the final component, and report the index of the slash just before it. -/
def dirnameScan (cs : List Char) : Nat → Bool → Option Nat
  | 0, _ => none
  | i + 1, matchedSlash =>
      if cs.getD (i + 1) ' ' = '/' then
        if matchedSlash then dirnameScan cs i matchedSlash else some (i + 1)
      else dirnameScan cs i false

/-- path.posix.dirname, following Node's algorithm. -/
def dirname (p : String) : String :=
  let cs := p.toList
  if cs.length = 0 then "."
  else
    let hasRoot := cs.getD 0 ' ' = '/'
    match dirnameScan cs (cs.length - 1) true with
    | none => if hasRoot then "/" else "."
    | some e => if hasRoot ∧ e = 1 then "//" else String.mk (cs.take e)

/-- The walk inside MemFS._lookup: follow each segment through directory
child mappings; a missing key or a file met before the last segment yields
nothing. -/
def lookupSegs : Entry → List String → Option Entry
  | e, [] => some e
  | .dir _ _ _ _ es, part :: rest =>
      (match mapGet es part with
       | some child => lookupSegs child rest
       | none => none)
  | .file _ _ _ _, _ :: _ => none

/-- MemFS._lookup: resolve a path from the root, throwing EntryNotFound when
the walk yields nothing. -/
def _lookup (root : Entry) (p : String) : Except FsError Entry :=
  match lookupSegs root (pathSegs p) with
  | some e => .ok e
  | none => .error .entryNotFound

/-- MemFS._lookupAsDirectory: resolve and require a Directory. -/
def _lookupDir (root : Entry) (p : String) : Except FsError Entry :=
  match _lookup root p with
  | .error e => .error e
  | .ok e => if e.isDir then .ok e else .error .entryNotADirectory

/-- MemFS._lookupParentDirectory: resolve the dirname as a directory. -/
def _lookupContainer (root : Entry) (p : String) : Except FsError Entry :=
  _lookupDir root (dirname p)

/-- Rebuild the tree with the node at the given (already resolved) segment
list replaced by f of itself; where the path does not resolve the tree is
returned unchanged, mirroring that the source only mutates through
references obtained from successful lookups. -/
def updateAt : Entry → List String → (Entry → Entry) → Entry
  | e, [], f => f e
  | .dir n m sz dt es, part :: rest, f =>
      .dir n m sz dt (mapUpdate es part (fun c => updateAt c rest f))
  | .file n m sz dt, _ :: _, _ => .file n m sz dt

/-- Replace or add one child of a directory (no metadata change), as
parent.entries.set does in writeFile and rename. -/
def setChild (k : String) (v : Entry) : Entry → Entry
  | .dir n m sz dt es => .dir n m sz dt (mapSet es k v)
  | e => e

/-- Remove one child of a directory (no metadata change), as
oldParent.entries.delete does in rename. -/
def deleteChild (k : String) : Entry → Entry
  | .dir n m sz dt es => .dir n m sz dt (mapDelete es k)
  | e => e

/-- The parent mutation in MemFS.delete: drop the child, set mtime to now,
decrement size. -/
def removeAndTouch (k : String) (now : Nat) : Entry → Entry
  | .dir n _ sz dt es => .dir n now (sz - 1) dt (mapDelete es k)
  | e => e

/-- The parent mutation in MemFS.createDirectory: insert the child, set
mtime to now, increment size. -/
def insertAndTouch (k : String) (v : Entry) (now : Nat) : Entry → Entry
  | .dir n _ sz dt es => .dir n now (sz + 1) dt (mapSet es k v)
  | e => e

/-- The common tail of MemFS.writeFile: entry.mtime = now, entry.size =
content.byteLength, _data.set(entry, content).  Kind, name and children are
untouched (the source performs no kind check). -/
def Entry.withWrite : Entry → Nat → Bytes → Entry
  | .file n _ _ _, now, c => .file n now (c.length : Int) (some c)
  | .dir n _ _ _ es, now, c => .dir n now (c.length : Int) (some c) es

/-- entry.name = newName in MemFS.rename. -/
def Entry.withName : Entry → String → Entry
  | .file _ m sz dt, n => .file n m sz dt
  | .dir _ m sz dt es, n => .dir n m sz dt es

/-- MemFS.stat: return the resolved entry (it is its own FileStat). -/
def stat (root : Entry) (p : String) : Except FsError Entry :=
  _lookup root p

/-- MemFS.readDirectory: the (name, child) pairs of a directory. -/
def readDirectory (root : Entry) (p : String) :
    Except FsError (List (String × Entry)) :=
  match _lookupDir root p with
  | .error e => .error e
  | .ok d => .ok (entriesOf d)

/-- MemFS.readFile: the content associated with the resolved entry, or the
empty byte sequence when none is stored. -/
def readFile (root : Entry) (p : String) : Except FsError Bytes :=
  match _lookup root p with
  | .error e => .error e
  | .ok e => .ok (e.data.getD [])

/-- MemFS.writeFile.  Resolve the parent, check the create/exclusive
conditions, create a File when absent (Created event), then store mtime,
size and content (Changed event). -/
def writeFile (root : Entry) (now : Nat) (p : String) (content : Bytes)
    (create exclusive : Bool) : Except FsError (Entry × List Ev) :=
  let bn := basename p
  match _lookupContainer root p with
  | .error e => .error e
  | .ok parent =>
    match mapGet (entriesOf parent) bn with
    | none =>
      if !create then .error .entryNotFound
      else
        .ok (updateAt root (pathSegs (dirname p))
              (setChild bn ((Entry.file bn now 0 none).withWrite now content)),
             [⟨.created, p⟩, ⟨.changed, p⟩])
    | some entry =>
      if create && exclusive then .error .entryExists
      else
        .ok (updateAt root (pathSegs (dirname p))
              (setChild bn (entry.withWrite now content)),
             [⟨.changed, p⟩])

/-- MemFS.rename.  Resolve the entry, its container and the destination's
container; then delete the entry from the old parent under entry.name,
rename it, and set it into the new parent under the destination basename. -/
def rename (root : Entry) (oldP newP : String) : Except FsError (Entry × List Ev) :=
  match _lookup root oldP with
  | .error e => .error e
  | .ok entry =>
    match _lookupContainer root oldP with
    | .error e => .error e
    | .ok _ =>
      match _lookupContainer root newP with
      | .error e => .error e
      | .ok _ =>
        let newName := basename newP
        let root1 := updateAt root (pathSegs (dirname oldP)) (deleteChild entry.name)
        let root2 := updateAt root1 (pathSegs (dirname newP))
            (setChild newName (entry.withName newName))
        .ok (root2, [⟨.deleted, oldP⟩, ⟨.created, newP⟩])

/-- MemFS.delete.  Resolve the containing directory, require the basename to
be present, then remove it, touching the parent's mtime and size. -/
def delete (root : Entry) (now : Nat) (p : String) : Except FsError (Entry × List Ev) :=
  let dn := dirname p
  let bn := basename p
  match _lookupDir root dn with
  | .error e => .error e
  | .ok parent =>
    if (mapGet (entriesOf parent) bn).isNone then .error .entryNotFound
    else
      .ok (updateAt root (pathSegs dn) (removeAndTouch bn now),
           [⟨.changed, dn⟩, ⟨.deleted, p⟩])

/-- MemFS.createDirectory.  Resolve the parent directory, then insert a
fresh empty Directory under the basename with no existence check, touching
the parent's mtime and size. -/
def createDirectory (root : Entry) (now : Nat) (p : String) :
    Except FsError (Entry × List Ev) :=
  let bn := basename p
  let dn := dirname p
  match _lookupDir root dn with
  | .error e => .error e
  | .ok _ =>
    .ok (updateAt root (pathSegs dn)
          (insertAndTouch bn (Entry.dir bn now 0 none []) now),
         [⟨.changed, dn⟩, ⟨.created, p⟩])

/-- The initial state: new Directory with the empty name (creation mtime
abstracted to 0). -/
def initRoot : Entry := .dir "" 0 0 none []

/-- One request against the MemFS contract, with the clock value it runs at. -/
inductive Op where
  | stat (p : String)
  | readDirectory (p : String)
  | readFile (p : String)
  | writeFile (now : Nat) (p : String) (content : Bytes) (create exclusive : Bool)
  | rename (oldP newP : String)
  | delete (now : Nat) (p : String)
  | createDirectory (now : Nat) (p : String)

/-- Run one operation: the resulting tree, the events it fired, and the
error it threw, if any. -/
def applyOp (o : Op) (s : Entry) : Entry × List Ev × Option FsError :=
  match o with
  | .stat p =>
    (match stat s p with
     | .ok _ => (s, [], none)
     | .error e => (s, [], some e))
  | .readDirectory p =>
    (match readDirectory s p with
     | .ok _ => (s, [], none)
     | .error e => (s, [], some e))
  | .readFile p =>
    (match readFile s p with
     | .ok _ => (s, [], none)
     | .error e => (s, [], some e))
  | .writeFile now p c cr ex =>
    (match writeFile s now p c cr ex with
     | .ok r => (r.1, r.2, none)
     | .error e => (s, [], some e))
  | .rename a b =>
    (match rename s a b with
     | .ok r => (r.1, r.2, none)
     | .error e => (s, [], some e))
  | .delete now p =>
    (match delete s now p with
     | .ok r => (r.1, r.2, none)
     | .error e => (s, [], some e))
  | .createDirectory now p =>
    (match createDirectory s now p with
     | .ok r => (r.1, r.2, none)
     | .error e => (s, [], some e))

/-- The Change Notifier state: the ordered buffer MemFS._bufferedEvents and
the scheduled flush instant, if any (MemFS._fireSoonHandle). -/
structure Notifier where
  buffer : List Ev
  deadline : Option Nat
deriving DecidableEq, Repr

/-- The quiet period of MemFS._fireSoon (setTimeout delay of 5). -/
def quiet : Nat := 5

/-- MemFS._fireSoon: append the events to the buffer, cancel any scheduled
flush, and schedule a new one a full quiet period from now. -/
def fireSoon (n : Notifier) (now : Nat) (events : List Ev) : Notifier :=
  ⟨n.buffer ++ events, some (now + quiet)⟩

/-- The scheduled flush firing: when due at the given instant, deliver the
whole buffer and return to the idle state. -/
def deliverDue (n : Notifier) (now : Nat) : Notifier × Option (List Ev) :=
  match n.deadline with
  | some d => if d ≤ now then (⟨[], none⟩, some n.buffer) else (n, none)
  | none => (n, none)

/-- Drive the notifier over timestamped recordings: before each recording
fire any flush already due, and after the last recording let the pending
flush fire.  Returns the delivered batches in order and the final state. -/
def runSched : Notifier → List (Nat × List Ev) → List (List Ev) × Notifier
  | n, [] =>
    (match n.deadline with
     | some _ => ([n.buffer], ⟨[], none⟩)
     | none => ([], n))
  | n, (t, evs) :: rest =>
    let fired := deliverDue n t
    let n2 := fireSoon fired.1 t evs
    let out := runSched n2 rest
    (match fired.2 with
     | some batch => (batch :: out.1, out.2)
     | none => out)

/-- Timestamps are monotone and each recording arrives strictly within the
quiet period opened by the previous one. -/
def gapsOK : Nat → List (Nat × List Ev) → Bool
  | _, [] => true
  | prev, (t, _) :: rest =>
      (decide (prev ≤ t) && decide (t < prev + quiet)) && gapsOK t rest

/-- Boolean prefix test on segment lists. -/
def isPre : List String → List String → Bool
  | [], _ => true
  | _ :: _, [] => false
  | a :: as, b :: bs => decide (a = b) && isPre as bs

mutual

/-- Every child is keyed by its own name field, recursively (the Map-key
invariant the source maintains). -/
def nameWF : Entry → Bool
  | .file _ _ _ _ => true
  | .dir _ _ _ _ es => nameWFL es

/-- nameWF over a child list. -/
def nameWFL : List (String × Entry) → Bool
  | [] => true
  | (k, c) :: rest => (decide (k = c.name) && nameWF c) && nameWFL rest

end

mutual

/-- Every directory's size field equals its number of direct children,
recursively (the property claimed of reachable states). -/
def sizesOK : Entry → Bool
  | .file _ _ _ _ => true
  | .dir _ _ sz _ es => decide (sz = (es.length : Int)) && sizesOKL es

/-- sizesOK over a child list. -/
def sizesOKL : List (String × Entry) → Bool
  | [] => true
  | (_, c) :: rest => sizesOK c && sizesOKL rest

end

/-- A root holding one file /f with content [1, 2]. -/
def sampleA : Entry := .dir "" 0 0 none [("f", .file "f" 7 2 (some [1, 2]))]

/-- A root holding one empty directory /d. -/
def sampleB : Entry := .dir "" 0 0 none [("d", .dir "d" 0 0 none [])]

/-- A root holding one file named d. -/
def sampleC : Entry := .dir "" 0 0 none [("d", .file "d" 1 0 none)]

/-- A root holding a directory /d that itself holds a file /d/x. -/
def sampleD : Entry :=
  .dir "" 0 0 none [("d", .dir "d" 1 5 none [("x", .file "x" 0 0 none)])]

/-! ### Lemmas about the child-mapping operations -/

theorem mapGet_set_self (m : List (String × Entry)) (k : String) (v : Entry) :
    mapGet (mapSet m k v) k = some v := by
  induction m with
  | nil => simp [mapSet, mapGet]
  | cons kv rest ih =>
    obtain ⟨k', v'⟩ := kv
    by_cases h : k' = k <;> simp [mapSet, mapGet, h, ih]

theorem mapGet_set_ne (m : List (String × Entry)) (k k' : String) (v : Entry)
    (h : k' ≠ k) : mapGet (mapSet m k v) k' = mapGet m k' := by
  have hkk : k ≠ k' := fun hh => h hh.symm
  induction m with
  | nil => simp [mapSet, mapGet, hkk]
  | cons kv rest ih =>
    obtain ⟨k0, v0⟩ := kv
    by_cases h0 : k0 = k
    · subst h0
      simp [mapSet, mapGet, hkk]
    · simp [mapSet, mapGet, h0, ih]

theorem mapGet_del_self (m : List (String × Entry)) (k : String) :
    mapGet (mapDelete m k) k = none := by
  induction m with
  | nil => simp [mapDelete, mapGet]
  | cons kv rest ih =>
    obtain ⟨k', v'⟩ := kv
    by_cases h : k' = k <;> simp [mapDelete, mapGet, h, ih]

theorem mapGet_del_ne (m : List (String × Entry)) (k k' : String)
    (h : k' ≠ k) : mapGet (mapDelete m k) k' = mapGet m k' := by
  have hkk : k ≠ k' := fun hh => h hh.symm
  induction m with
  | nil => simp [mapDelete]
  | cons kv rest ih =>
    obtain ⟨k0, v0⟩ := kv
    by_cases h0 : k0 = k
    · subst h0
      simp [mapDelete, mapGet, hkk, ih]
    · by_cases h1 : k0 = k' <;> simp [mapDelete, mapGet, h0, h1, h, ih]

theorem mapGet_update_self (m : List (String × Entry)) (k : String)
    (f : Entry → Entry) : mapGet (mapUpdate m k f) k = (mapGet m k).map f := by
  induction m with
  | nil => simp [mapUpdate, mapGet]
  | cons kv rest ih =>
    obtain ⟨k', v'⟩ := kv
    by_cases h : k' = k <;> simp [mapUpdate, mapGet, h, ih]

theorem mapGet_update_ne (m : List (String × Entry)) (k k' : String)
    (f : Entry → Entry) (h : k' ≠ k) :
    mapGet (mapUpdate m k f) k' = mapGet m k' := by
  have hkk : k ≠ k' := fun hh => h hh.symm
  induction m with
  | nil => simp [mapUpdate]
  | cons kv rest ih =>
    obtain ⟨k0, v0⟩ := kv
    by_cases h0 : k0 = k
    · subst h0
      simp [mapUpdate, mapGet, hkk, ih]
    · by_cases h1 : k0 = k' <;> simp [mapUpdate, mapGet, h0, h1, h, ih]

theorem mapUpdate_absent (m : List (String × Entry)) (k : String)
    (f : Entry → Entry) (h : mapGet m k = none) : mapUpdate m k f = m := by
  induction m with
  | nil => simp [mapUpdate]
  | cons kv rest ih =>
    obtain ⟨k', v'⟩ := kv
    by_cases h0 : k' = k
    · simp [mapGet, h0] at h
    · simp [mapGet, h0] at h
      simp [mapUpdate, h0, ih h]

theorem mapUpdate_fix (m : List (String × Entry)) (k : String)
    (f : Entry → Entry) (c : Entry) (hg : mapGet m k = some c) (hf : f c = c) :
    mapUpdate m k f = m := by
  induction m with
  | nil => simp [mapGet] at hg
  | cons kv rest ih =>
    obtain ⟨k', v'⟩ := kv
    by_cases h0 : k' = k
    · simp [mapGet, h0] at hg
      subst hg
      simp [mapUpdate, h0, hf]
    · simp [mapGet, h0] at hg
      simp [mapUpdate, h0, ih hg]

theorem mapSet_length_absent (m : List (String × Entry)) (k : String) (v : Entry)
    (h : mapGet m k = none) : (mapSet m k v).length = m.length + 1 := by
  induction m with
  | nil => simp [mapSet]
  | cons kv rest ih =>
    obtain ⟨k', v'⟩ := kv
    by_cases h0 : k' = k
    · simp [mapGet, h0] at h
    · simp [mapGet, h0] at h
      simp [mapSet, h0, ih h]

/-! ### Lemmas about lookupSegs and updateAt -/

theorem lookupSegs_dir_cons (n : String) (m : Nat) (sz : Int) (dt : Option Bytes)
    (es : List (String × Entry)) (part : String) (rest : List String) :
    lookupSegs (.dir n m sz dt es) (part :: rest) =
      (match mapGet es part with
       | some child => lookupSegs child rest
       | none => none) := rfl

theorem lookupSegs_append (S T : List String) (r : Entry) :
    lookupSegs r (S ++ T) = (lookupSegs r S).bind (fun e => lookupSegs e T) := by
  induction S generalizing r with
  | nil => simp [lookupSegs]
  | cons p ps ih =>
    cases r with
    | file n m sz dt => simp [lookupSegs]
    | dir n m sz dt es =>
      cases hg : mapGet es p with
      | none => simp [lookupSegs_dir_cons, hg]
      | some c => simp [lookupSegs_dir_cons, hg, ih]

theorem updateAt_none (S : List String) (r : Entry) (f : Entry → Entry)
    (h : lookupSegs r S = none) : updateAt r S f = r := by
  induction S generalizing r with
  | nil => simp [lookupSegs] at h
  | cons p ps ih =>
    cases r with
    | file n m sz dt => simp [updateAt]
    | dir n m sz dt es =>
      cases hg : mapGet es p with
      | none => simp [updateAt, mapUpdate_absent es p _ hg]
      | some c =>
        simp [lookupSegs_dir_cons, hg] at h
        simp [updateAt, mapUpdate_fix es p (fun c => updateAt c ps f) c hg (ih c h)]

theorem lookupSegs_updateAt_append (S T : List String) (r e : Entry)
    (f : Entry → Entry) (h : lookupSegs r S = some e) :
    lookupSegs (updateAt r S f) (S ++ T) = lookupSegs (f e) T := by
  induction S generalizing r with
  | nil =>
    simp [lookupSegs] at h
    subst h
    simp [updateAt]
  | cons p ps ih =>
    cases r with
    | file n m sz dt => simp [lookupSegs] at h
    | dir n m sz dt es =>
      cases hg : mapGet es p with
      | none => simp [lookupSegs_dir_cons, hg] at h
      | some c =>
        simp [lookupSegs_dir_cons, hg] at h
        simp [updateAt, lookupSegs_dir_cons, mapGet_update_self, hg, ih c h]

theorem lookupSegs_updateAt_pre (T R : List String) (r : Entry)
    (f : Entry → Entry) :
    lookupSegs (updateAt r (T ++ R) f) T =
      (lookupSegs r T).map (fun e => updateAt e R f) := by
  induction T generalizing r with
  | nil => simp [lookupSegs, updateAt]
  | cons t T' ih =>
    cases r with
    | file n m sz dt => simp [lookupSegs, updateAt]
    | dir n m sz dt es =>
      cases hg : mapGet es t with
      | none =>
        simp [updateAt, lookupSegs_dir_cons, mapGet_update_self, hg]
      | some c =>
        simp [updateAt, lookupSegs_dir_cons, mapGet_update_self, hg, ih c]

theorem lookupSegs_updateAt_diverge (P : List String) (x y : String)
    (S2 T2 : List String) (r : Entry) (f : Entry → Entry) (hxy : x ≠ y) :
    lookupSegs (updateAt r (P ++ y :: S2) f) (P ++ x :: T2) =
      lookupSegs r (P ++ x :: T2) := by
  induction P generalizing r with
  | nil =>
    cases r with
    | file n m sz dt => simp [updateAt]
    | dir n m sz dt es =>
      simp only [List.nil_append]
      rw [updateAt, lookupSegs_dir_cons, lookupSegs_dir_cons,
          mapGet_update_ne es y x _ hxy]
  | cons p P' ih =>
    cases r with
    | file n m sz dt => simp [updateAt]
    | dir n m sz dt es =>
      simp only [List.cons_append]
      rw [updateAt, lookupSegs_dir_cons, lookupSegs_dir_cons,
          mapGet_update_self]
      cases hg : mapGet es p with
      | none => simp
      | some c => simp [ih c]

theorem lookupSegs_setChild_ne (d : Entry) (k k' : String) (v : Entry)
    (Z : List String) (h : k' ≠ k) :
    lookupSegs (setChild k v d) (k' :: Z) = lookupSegs d (k' :: Z) := by
  cases d with
  | file n m sz dt => rfl
  | dir n m sz dt es =>
    rw [setChild, lookupSegs_dir_cons, lookupSegs_dir_cons,
        mapGet_set_ne es k k' v h]

theorem lookupSegs_deleteChild_ne (d : Entry) (k k' : String)
    (Z : List String) (h : k' ≠ k) :
    lookupSegs (deleteChild k d) (k' :: Z) = lookupSegs d (k' :: Z) := by
  cases d with
  | file n m sz dt => rfl
  | dir n m sz dt es =>
    rw [deleteChild, lookupSegs_dir_cons, lookupSegs_dir_cons,
        mapGet_del_ne es k k' h]

/-! ### Lemmas about the Except-level lookups -/

theorem lookup_ok_iff (root : Entry) (p : String) (e : Entry) :
    _lookup root p = .ok e ↔ lookupSegs root (pathSegs p) = some e := by
  unfold _lookup
  cases h : lookupSegs root (pathSegs p) <;> simp

theorem lookup_err (root : Entry) (p : String) (e : FsError)
    (h : _lookup root p = .error e) :
    lookupSegs root (pathSegs p) = none ∧ e = .entryNotFound := by
  unfold _lookup at h
  cases hg : lookupSegs root (pathSegs p) with
  | none =>
    rw [hg] at h
    simp at h
    exact ⟨rfl, h.symm⟩
  | some x =>
    rw [hg] at h
    simp at h

theorem lookup_of_none (root : Entry) (p : String)
    (h : lookupSegs root (pathSegs p) = none) :
    _lookup root p = .error .entryNotFound := by
  unfold _lookup
  simp [h]

theorem lookupDir_ok (root : Entry) (p : String) (d : Entry)
    (h : _lookupDir root p = .ok d) :
    lookupSegs root (pathSegs p) = some d ∧ d.isDir = true := by
  unfold _lookupDir at h
  cases hl : _lookup root p with
  | error e => simp [hl] at h
  | ok e =>
    rw [hl] at h
    by_cases hd : e.isDir <;> simp [hd] at h
    subst h
    exact ⟨(lookup_ok_iff root p e).mp hl, hd⟩

/-! ### Prefix facts on segment lists -/

theorem isPre_append (S X : List String) : isPre S (S ++ X) = true := by
  induction S with
  | nil => simp [isPre]
  | cons s S' ih => simp [isPre, ih]

theorem exists_of_isPre (S T : List String) (h : isPre S T = true) :
    ∃ X, T = S ++ X := by
  induction S generalizing T with
  | nil => exact ⟨T, rfl⟩
  | cons s S' ih =>
    cases T with
    | nil => simp [isPre] at h
    | cons t T' =>
      simp [isPre] at h
      obtain ⟨rfl, h2⟩ := h
      obtain ⟨X, rfl⟩ := ih T' h2
      exact ⟨X, rfl⟩

theorem isPre_trans (S T U : List String) (h1 : isPre S T = true)
    (h2 : isPre T U = true) : isPre S U = true := by
  obtain ⟨X, rfl⟩ := exists_of_isPre S T h1
  obtain ⟨Y, rfl⟩ := exists_of_isPre (S ++ X) U h2
  rw [List.append_assoc]
  exact isPre_append S (X ++ Y)

theorem isPre_trich (S T : List String) :
    isPre S T = true ∨ isPre T S = true ∨
      ∃ P x S2 y T2, x ≠ y ∧ S = P ++ x :: S2 ∧ T = P ++ y :: T2 := by
  induction S generalizing T with
  | nil => left; simp [isPre]
  | cons s S' ih =>
    cases T with
    | nil => right; left; simp [isPre]
    | cons t T' =>
      by_cases hst : s = t
      · subst hst
        rcases ih T' with h | h | ⟨P, x, S2, y, T2, hxy, rfl, rfl⟩
        · left; simp [isPre, h]
        · right; left; simp [isPre, h]
        · right; right
          exact ⟨s :: P, x, S2, y, T2, hxy, rfl, rfl⟩
      · right; right
        exact ⟨[], s, S', t, T', hst, rfl, rfl⟩

/-! ### The child-key/name invariant -/

theorem nameWFL_get (es : List (String × Entry)) (k : String) (c : Entry)
    (hwf : nameWFL es = true) (hg : mapGet es k = some c) :
    c.name = k ∧ nameWF c = true := by
  induction es with
  | nil => simp [mapGet] at hg
  | cons kv rest ih =>
    obtain ⟨k', v'⟩ := kv
    rw [nameWFL] at hwf
    simp only [Bool.and_eq_true, decide_eq_true_eq] at hwf
    obtain ⟨⟨hk, hv⟩, hrest⟩ := hwf
    by_cases h0 : k' = k
    · subst h0
      simp [mapGet] at hg
      subst hg
      exact ⟨hk.symm, hv⟩
    · simp [mapGet, h0] at hg
      exact ih hrest hg

theorem nameWF_lookupSegs (S : List String) (r e : Entry)
    (hwf : nameWF r = true) (h : lookupSegs r S = some e) :
    nameWF e = true := by
  induction S generalizing r with
  | nil => simp [lookupSegs] at h; subst h; exact hwf
  | cons p ps ih =>
    cases r with
    | file n m sz dt => simp [lookupSegs] at h
    | dir n m sz dt es =>
      cases hg : mapGet es p with
      | none => simp [lookupSegs_dir_cons, hg] at h
      | some c =>
        simp [lookupSegs_dir_cons, hg] at h
        rw [nameWF] at hwf
        exact ih c (nameWFL_get es p c hwf hg).2 h

/-! ### Small helper lemmas about entry transforms -/

theorem withWrite_size (e : Entry) (now : Nat) (c : Bytes) :
    (e.withWrite now c).size = (c.length : Int) := by
  cases e <;> rfl

theorem withWrite_data (e : Entry) (now : Nat) (c : Bytes) :
    (e.withWrite now c).data = some c := by
  cases e <;> rfl

theorem withName_data (e : Entry) (n : String) :
    (e.withName n).data = e.data := by
  cases e <;> rfl

theorem isDir_exists (e : Entry) (h : e.isDir = true) :
    ∃ n m sz dt es, e = .dir n m sz dt es := by
  cases e with
  | file n m sz dt => simp [Entry.isDir] at h
  | dir n m sz dt es => exact ⟨n, m, sz, dt, es, rfl⟩

theorem lookupSegs_setChild_self (n : String) (m : Nat) (sz : Int)
    (dt : Option Bytes) (es : List (String × Entry)) (k : String) (v : Entry) :
    lookupSegs (setChild k v (.dir n m sz dt es)) [k] = some v := by
  simp [setChild, lookupSegs_dir_cons, mapGet_set_self, lookupSegs]

theorem lookupSegs_deleteChild_self (n : String) (m : Nat) (sz : Int)
    (dt : Option Bytes) (es : List (String × Entry)) (k : String) :
    lookupSegs (deleteChild k (.dir n m sz dt es)) [k] = none := by
  simp [deleteChild, lookupSegs_dir_cons, mapGet_del_self]

/-! ### Claim C2 -/

/-- Claim C2 (confirmed): whenever a MemFS operation fails with an error,
the tree afterwards is exactly the tree before the call and no events were
fired: every resolution and precondition check happens before any mutation
is applied. -/
theorem c2_error_leaves_state (o : Op) (s s' : Entry) (evs : List Ev)
    (e : FsError) (h : applyOp o s = (s', evs, some e)) :
    s' = s ∧ evs = [] := by
  cases o <;> (simp only [applyOp] at h; split at h <;> simp_all)

/-- Witness for C2: a delete of the absent path /x on the empty root fails
and leaves the root untouched. -/
theorem c2_witness : initRoot = initRoot ∧ ([] : List Ev) = [] :=
  c2_error_leaves_state (.delete 0 "/x") initRoot initRoot [] .entryNotFound rfl

/-! ### Claim C7 -/

/-- Claim C7 (confirmed): resolution depends only on the non-empty
slash-separated segments (leading, trailing or doubled separators are
ignored), the empty path and the bare slash resolve to the root, resolution
failure is always EntryNotFound (never EntryNotADirectory), and the walk
yields nothing both when a segment is missing from the current Directory
and when a non-terminal segment names a File. -/
theorem c7_lookup_resolution (r : Entry) (a b p : String) :
    (pathSegs a = pathSegs b → _lookup r a = _lookup r b)
    ∧ _lookup r "" = .ok r
    ∧ _lookup r "/" = .ok r
    ∧ (∀ e, _lookup r p = .error e → e = .entryNotFound)
    ∧ (∀ n m sz dt x rest, lookupSegs (.file n m sz dt) (x :: rest) = none)
    ∧ (∀ n m sz dt es x rest, mapGet es x = none →
        lookupSegs (.dir n m sz dt es) (x :: rest) = none) := by
  refine ⟨?_, ?_, ?_, ?_, ?_, ?_⟩
  · intro h
    unfold _lookup
    rw [h]
  · cases r <;> rfl
  · cases r <;> rfl
  · intro e he
    exact (lookup_err r p e he).2
  · intro n m sz dt x rest
    rfl
  · intro n m sz dt es x rest h
    simp [lookupSegs_dir_cons, h]

/-- Witness for C7: //f/ and /f differ only in extra separators and resolve
alike in sampleA. -/
theorem c7_witness : _lookup sampleA "//f/" = _lookup sampleA "/f" :=
  (c7_lookup_resolution sampleA "//f/" "/f" "").1 rfl

/-! ### Claim C9 -/

/-- Claim C9 (confirmed): readFile performs no kind check: a path resolving
to a Directory entry reads successfully, returning the associated content,
and in particular the empty byte sequence when none is associated. -/
theorem c9_read_directory (s e : Entry) (p : String)
    (h : _lookup s p = .ok e) (_hd : e.isDir = true) :
    readFile s p = .ok (e.data.getD [])
    ∧ (e.data = none → readFile s p = .ok []) := by
  constructor
  · simp [readFile, h]
  · intro hn
    simp [readFile, h, hn]

/-- Witness for C9: reading the directory path /d of sampleB succeeds with
empty content. -/
theorem c9_witness :
    readFile sampleB "/d" = .ok (((Entry.dir "d" 0 0 none []).data).getD [])
    ∧ ((Entry.dir "d" 0 0 none []).data = none → readFile sampleB "/d" = .ok []) :=
  c9_read_directory sampleB (.dir "d" 0 0 none []) "/d" rfl rfl

/-! ### Claim C1 -/

/-- Counterexample to Claim C1 as stated: the parent of the path "/"
resolves to the root Directory and the creating write succeeds, but it
stores the file under the empty basename, which segment resolution skips,
so reading "/" back yields the empty content instead of the written
content. -/
theorem c1_cx :
    _lookupContainer initRoot "/" = .ok initRoot
    ∧ writeFile initRoot 0 "/" [7] true false
        = .ok (.dir "" 0 0 none [("", .file "" 0 1 (some [7]))],
               [⟨.created, "/"⟩, ⟨.changed, "/"⟩])
    ∧ readFile (.dir "" 0 0 none [("", .file "" 0 1 (some [7]))]) "/" = .ok []
    ∧ ((Except.ok [] : Except FsError Bytes) ≠ .ok [7]) := by
  refine ⟨rfl, rfl, rfl, ?_⟩
  simp

/-- Claim C1 amended: for a path whose parent resolves to a Directory and
whose segment list is the parent path's segments extended by the basename
(true of every absolute path with at least one non-empty segment, and
excluding root-like paths such as "/"), write with create followed by read
returns exactly the written content, and stat reports its byte length. -/
theorem c1_write_read_amended (s parent : Entry) (now : Nat) (p : String)
    (content : Bytes)
    (hc : _lookupContainer s p = .ok parent)
    (hdec : pathSegs p = pathSegs (dirname p) ++ [basename p]) :
    ∃ s' evs, writeFile s now p content true false = .ok (s', evs)
      ∧ readFile s' p = .ok content
      ∧ ∃ st, stat s' p = .ok st ∧ st.size = (content.length : Int) := by
  obtain ⟨hl, hd⟩ := lookupDir_ok s (dirname p) parent hc
  obtain ⟨n, m, sz, dt, es, rfl⟩ := isDir_exists parent hd
  have hc' : _lookupContainer s p = .ok (.dir n m sz dt es) := hc
  cases hg : mapGet es (basename p) with
  | none =>
    have hw : writeFile s now p content true false
        = .ok (updateAt s (pathSegs (dirname p))
                 (setChild (basename p)
                   ((Entry.file (basename p) now 0 none).withWrite now content)),
               [⟨.created, p⟩, ⟨.changed, p⟩]) := by
      simp only [writeFile, hc', entriesOf, hg]
      rfl
    have hlk : lookupSegs (updateAt s (pathSegs (dirname p))
          (setChild (basename p)
            ((Entry.file (basename p) now 0 none).withWrite now content)))
          (pathSegs p)
        = some ((Entry.file (basename p) now 0 none).withWrite now content) := by
      rw [hdec,
          lookupSegs_updateAt_append (pathSegs (dirname p)) [basename p] s
            (.dir n m sz dt es) _ hl,
          lookupSegs_setChild_self]
    refine ⟨_, _, hw, ?_, ?_⟩
    · unfold readFile _lookup
      rw [hlk]
      simp [withWrite_data]
    · refine ⟨(Entry.file (basename p) now 0 none).withWrite now content, ?_, ?_⟩
      · unfold stat _lookup
        rw [hlk]
      · rw [withWrite_size]
  | some entry =>
    have hw : writeFile s now p content true false
        = .ok (updateAt s (pathSegs (dirname p))
                 (setChild (basename p) (entry.withWrite now content)),
               [⟨.changed, p⟩]) := by
      simp only [writeFile, hc', entriesOf, hg]
      rfl
    have hlk : lookupSegs (updateAt s (pathSegs (dirname p))
          (setChild (basename p) (entry.withWrite now content)))
          (pathSegs p)
        = some (entry.withWrite now content) := by
      rw [hdec,
          lookupSegs_updateAt_append (pathSegs (dirname p)) [basename p] s
            (.dir n m sz dt es) _ hl,
          lookupSegs_setChild_self]
    refine ⟨_, _, hw, ?_, ?_⟩
    · unfold readFile _lookup
      rw [hlk]
      simp [withWrite_data]
    · refine ⟨entry.withWrite now content, ?_, ?_⟩
      · unfold stat _lookup
        rw [hlk]
      · rw [withWrite_size]

/-- Witness for the amended C1: writing [9] to /a over sampleA then reading
it back. -/
theorem c1_witness :
    ∃ s' evs, writeFile sampleA 5 "/a" [9] true false = .ok (s', evs)
      ∧ readFile s' "/a" = .ok [9]
      ∧ ∃ st, stat s' "/a" = .ok st ∧ st.size = (1 : Int) :=
  c1_write_read_amended sampleA sampleA 5 "/a" [9] rfl rfl

/-- The empty segment walk returns the node itself. -/
theorem lookupSegs_nil (e : Entry) : lookupSegs e [] = some e := by
  cases e <;> rfl

/-- Looking the updated path itself up yields the transformed node. -/
theorem lookupSegs_updateAt_self (S : List String) (r e : Entry)
    (f : Entry → Entry) (h : lookupSegs r S = some e) :
    lookupSegs (updateAt r S f) S = some (f e) := by
  have h2 := lookupSegs_updateAt_append S [] r e f h
  simpa [lookupSegs_nil] using h2

/-! ### Claim C3 -/

/-- Claim C3 (confirmed): with the parent resolved as a Directory, writeFile
fails EntryNotFound exactly when the target basename is absent and create is
false, fails EntryExists exactly when the basename is present and create and
exclusive both hold, and any error leaves the tree exactly as it was with no
events fired. -/
theorem c3_write_error_conditions (s parent : Entry) (now : Nat) (p : String)
    (content : Bytes) (create exclusive : Bool)
    (hc : _lookupContainer s p = .ok parent) :
    (writeFile s now p content create exclusive = .error .entryNotFound
      ↔ mapGet (entriesOf parent) (basename p) = none ∧ create = false)
    ∧ (writeFile s now p content create exclusive = .error .entryExists
      ↔ (mapGet (entriesOf parent) (basename p)).isSome = true
          ∧ create = true ∧ exclusive = true)
    ∧ (∀ s' evs e, applyOp (.writeFile now p content create exclusive) s
          = (s', evs, some e) → s' = s ∧ evs = []) := by
  refine ⟨?_, ?_, ?_⟩
  · cases hg : mapGet (entriesOf parent) (basename p) with
    | none => cases create <;> simp [writeFile, hc, hg]
    | some entry => cases create <;> cases exclusive <;> simp [writeFile, hc, hg]
  · cases hg : mapGet (entriesOf parent) (basename p) with
    | none => cases create <;> simp [writeFile, hc, hg]
    | some entry => cases create <;> cases exclusive <;> simp [writeFile, hc, hg]
  · intro s' evs e h
    simp only [applyOp] at h
    split at h <;> simp_all

/-- Witness for C3: writing the absent path /g of sampleA without create
fails EntryNotFound. -/
theorem c3_witness : writeFile sampleA 0 "/g" [1] false false = .error .entryNotFound :=
  ((c3_write_error_conditions sampleA sampleA 0 "/g" [1] false false rfl).1).mpr
    ⟨rfl, rfl⟩

/-! ### Claim C5 -/

/-- Counterexample to Claim C5 as stated: one successful creating write from
the empty root reaches a state where the root has one child but its size
field is still zero, because writeFile never updates the parent's size. -/
theorem c5_cx :
    writeFile initRoot 0 "/a" [] true false
      = .ok (.dir "" 0 0 none [("a", .file "a" 0 0 (some []))],
             [⟨.created, "/a"⟩, ⟨.changed, "/a"⟩])
    ∧ sizesOK (.dir "" 0 0 none [("a", .file "a" 0 0 (some []))]) = false := by
  constructor
  · rfl
  · simp [sizesOK, sizesOKL]

/-- Claim C5 amended: createDirectory adds one to the target parent's size
field and delete subtracts one, but writeFile inserts a fresh child without
touching the parent's size, so the size field does not in general equal the
number of direct children. -/
theorem c5_size_deltas_amended (s pa : Entry) (now : Nat) (p : String)
    (hp : _lookupDir s (dirname p) = .ok pa) :
    (∀ s' evs, createDirectory s now p = .ok (s', evs) →
      ∃ pa', lookupSegs s' (pathSegs (dirname p)) = some pa'
        ∧ pa'.size = pa.size + 1)
    ∧ (∀ s' evs, delete s now p = .ok (s', evs) →
      ∃ pa', lookupSegs s' (pathSegs (dirname p)) = some pa'
        ∧ pa'.size = pa.size - 1)
    ∧ (∀ s' evs content create exclusive,
        writeFile s now p content create exclusive = .ok (s', evs) →
      ∃ pa', lookupSegs s' (pathSegs (dirname p)) = some pa'
        ∧ pa'.size = pa.size
        ∧ (mapGet (entriesOf pa) (basename p) = none →
            (entriesOf pa').length = (entriesOf pa).length + 1)) := by
  obtain ⟨hl, hd⟩ := lookupDir_ok s (dirname p) pa hp
  obtain ⟨n, m, sz, dt, es, rfl⟩ := isDir_exists pa hd
  have hc' : _lookupContainer s p = .ok (.dir n m sz dt es) := hp
  refine ⟨?_, ?_, ?_⟩
  · intro s' evs h
    have hw : createDirectory s now p
        = .ok (updateAt s (pathSegs (dirname p))
                 (insertAndTouch (basename p)
                   (.dir (basename p) now 0 none []) now),
               [⟨.changed, dirname p⟩, ⟨.created, p⟩]) := by
      simp only [createDirectory, hp]
    rw [hw] at h
    simp only [Except.ok.injEq, Prod.mk.injEq] at h
    obtain ⟨hs, _⟩ := h
    subst hs
    refine ⟨_, lookupSegs_updateAt_self _ _ _ _ hl, ?_⟩
    simp [insertAndTouch, Entry.size]
  · intro s' evs h
    cases hgn : mapGet es (basename p) with
    | none => simp [delete, hp, entriesOf, hgn] at h
    | some c =>
      have hw : delete s now p
          = .ok (updateAt s (pathSegs (dirname p))
                   (removeAndTouch (basename p) now),
                 [⟨.changed, dirname p⟩, ⟨.deleted, p⟩]) := by
        simp [delete, hp, entriesOf, hgn]
      rw [hw] at h
      simp only [Except.ok.injEq, Prod.mk.injEq] at h
      obtain ⟨hs, _⟩ := h
      subst hs
      refine ⟨_, lookupSegs_updateAt_self _ _ _ _ hl, ?_⟩
      simp [removeAndTouch, Entry.size]
  · intro s' evs content create exclusive h
    cases hg : mapGet es (basename p) with
    | none =>
      cases create with
      | false => simp [writeFile, hc', entriesOf, hg] at h
      | true =>
        have hw : writeFile s now p content true exclusive
            = .ok (updateAt s (pathSegs (dirname p))
                     (setChild (basename p)
                       ((Entry.file (basename p) now 0 none).withWrite now content)),
                   [⟨.created, p⟩, ⟨.changed, p⟩]) := by
          simp only [writeFile, hc', entriesOf, hg]
          rfl
        rw [hw] at h
        simp only [Except.ok.injEq, Prod.mk.injEq] at h
        obtain ⟨hs, _⟩ := h
        subst hs
        refine ⟨_, lookupSegs_updateAt_self _ _ _ _ hl, ?_, ?_⟩
        · simp [setChild, Entry.size]
        · intro _
          simp [setChild, entriesOf]
          exact mapSet_length_absent es (basename p) _ hg
    | some entry =>
      have hne : ¬(create = true ∧ exclusive = true) := by
        intro ⟨h1, h2⟩
        subst h1; subst h2
        simp [writeFile, hc', entriesOf, hg] at h
      have hce : (create && exclusive) = false := by
        cases create <;> cases exclusive <;> simp_all
      have hw : writeFile s now p content create exclusive
          = .ok (updateAt s (pathSegs (dirname p))
                   (setChild (basename p) (entry.withWrite now content)),
                 [⟨.changed, p⟩]) := by
        simp only [writeFile, hc', entriesOf, hg, hce]
        rfl
      rw [hw] at h
      simp only [Except.ok.injEq, Prod.mk.injEq] at h
      obtain ⟨hs, _⟩ := h
      subst hs
      refine ⟨_, lookupSegs_updateAt_self _ _ _ _ hl, ?_, ?_⟩
      · simp [setChild, Entry.size]
      · intro hnone
        rw [entriesOf] at hnone
        rw [hnone] at hg
        cases hg

/-- Witness for the amended C5: mkdir /d on the empty root bumps the root's
size field from 0 to 1. -/
theorem c5_witness :
    ∃ pa', lookupSegs (.dir "" 3 1 none [("d", .dir "d" 3 0 none [])])
        (pathSegs (dirname "/d")) = some pa'
      ∧ pa'.size = initRoot.size + 1 :=
  (c5_size_deltas_amended initRoot initRoot 3 "/d" rfl).1
    (.dir "" 3 1 none [("d", .dir "d" 3 0 none [])])
    [⟨.changed, "/"⟩, ⟨.created, "/d"⟩] rfl

/-! ### Claim C6 -/

/-- Claim C6 (confirmed): with the parent resolved, createDirectory succeeds
even when an entry already exists under the target basename: it replaces the
binding with a fresh empty Directory (so the prior entry and its subtree are
no longer reachable under that name) and adds one to the parent's size. -/
theorem c6_mkdir_clobbers (s pa old : Entry) (now : Nat) (p : String)
    (hp : _lookupDir s (dirname p) = .ok pa)
    (_hold : mapGet (entriesOf pa) (basename p) = some old) :
    ∃ s', createDirectory s now p
        = .ok (s', [⟨.changed, dirname p⟩, ⟨.created, p⟩])
      ∧ lookupSegs s' (pathSegs (dirname p) ++ [basename p])
          = some (.dir (basename p) now 0 none [])
      ∧ ∃ pa', lookupSegs s' (pathSegs (dirname p)) = some pa'
          ∧ pa'.size = pa.size + 1
          ∧ entriesOf pa' = mapSet (entriesOf pa) (basename p)
              (.dir (basename p) now 0 none []) := by
  obtain ⟨hl, hd⟩ := lookupDir_ok s (dirname p) pa hp
  obtain ⟨n, m, sz, dt, es, rfl⟩ := isDir_exists pa hd
  have hw : createDirectory s now p
      = .ok (updateAt s (pathSegs (dirname p))
               (insertAndTouch (basename p)
                 (.dir (basename p) now 0 none []) now),
             [⟨.changed, dirname p⟩, ⟨.created, p⟩]) := by
    simp only [createDirectory, hp]
  refine ⟨_, hw, ?_, _, lookupSegs_updateAt_self _ _ _ _ hl, ?_, ?_⟩
  · rw [lookupSegs_updateAt_append (pathSegs (dirname p)) [basename p] s
        (.dir n m sz dt es) _ hl]
    simp [insertAndTouch, lookupSegs_dir_cons, mapGet_set_self, lookupSegs]
  · simp [insertAndTouch, Entry.size]
  · simp [insertAndTouch, entriesOf]

/-- Witness for C6: mkdir /d over sampleC, where /d is currently a File,
succeeds and replaces it with a fresh empty directory. -/
theorem c6_witness :
    ∃ s', createDirectory sampleC 9 "/d"
        = .ok (s', [⟨.changed, dirname "/d"⟩, ⟨.created, "/d"⟩])
      ∧ lookupSegs s' (pathSegs (dirname "/d") ++ [basename "/d"])
          = some (.dir (basename "/d") 9 0 none [])
      ∧ ∃ pa', lookupSegs s' (pathSegs (dirname "/d")) = some pa'
          ∧ pa'.size = sampleC.size + 1
          ∧ entriesOf pa' = mapSet (entriesOf sampleC) (basename "/d")
              (.dir (basename "/d") 9 0 none []) :=
  c6_mkdir_clobbers sampleC sampleC (.file "d" 1 0 none) 9 "/d" rfl rfl

/-! ### Claim C10 -/

/-- Counterexample to Claim C10 as stated: after mkdir("/") the empty
basename is bound to a Directory in the parent of "/", and writing "/"
succeeds firing only Changed, but the content lands on that skipped-name
child, so a subsequent read of "/" resolves to the root and returns the
empty content, not the written content. -/
theorem c10_cx :
    createDirectory initRoot 1 "/"
      = .ok (.dir "" 1 1 none [("", .dir "" 1 0 none [])],
             [⟨.changed, "/"⟩, ⟨.created, "/"⟩])
    ∧ mapGet (entriesOf (.dir "" 1 1 none [("", .dir "" 1 0 none [])]))
        (basename "/") = some (.dir "" 1 0 none [])
    ∧ writeFile (.dir "" 1 1 none [("", .dir "" 1 0 none [])]) 2 "/" [7] true false
        = .ok (.dir "" 1 1 none [("", .dir "" 2 1 (some [7]) [])],
               [⟨.changed, "/"⟩])
    ∧ readFile (.dir "" 1 1 none [("", .dir "" 2 1 (some [7]) [])]) "/" = .ok []
    ∧ ((Except.ok [] : Except FsError Bytes) ≠ .ok [7]) := by
  refine ⟨rfl, rfl, rfl, rfl, ?_⟩
  simp

/-- Claim C10 amended: writeFile performs no kind check on an existing
target.  For a path whose segment list is the parent path's segments
extended by the basename (true of every absolute non-root path, excluding
root-like paths such as "/"), when the basename is bound to a Directory and
create and exclusive are not both set, the write succeeds firing only a
Changed event, rewrites the Directory's mtime and size (now the content
byte length, no longer the child count), associates the content with the
Directory entry while leaving its children untouched, and a subsequent read
of the path returns the content. -/
theorem c10_write_directory (s parent : Entry) (now : Nat) (p : String)
    (content : Bytes) (create exclusive : Bool)
    (n : String) (m : Nat) (sz : Int) (dt : Option Bytes)
    (es : List (String × Entry))
    (hc : _lookupContainer s p = .ok parent)
    (hg : mapGet (entriesOf parent) (basename p) = some (.dir n m sz dt es))
    (hne : ¬(create = true ∧ exclusive = true))
    (hdec : pathSegs p = pathSegs (dirname p) ++ [basename p]) :
    ∃ s', writeFile s now p content create exclusive
        = .ok (s', [⟨.changed, p⟩])
      ∧ lookupSegs s' (pathSegs p)
          = some (.dir n now (content.length : Int) (some content) es)
      ∧ readFile s' p = .ok content := by
  obtain ⟨hl, hd⟩ := lookupDir_ok s (dirname p) parent hc
  obtain ⟨pn, pm, psz, pdt, pes, rfl⟩ := isDir_exists parent hd
  have hce : (create && exclusive) = false := by
    cases create <;> cases exclusive <;> simp_all
  have hg' : mapGet pes (basename p) = some (.dir n m sz dt es) := hg
  have hw : writeFile s now p content create exclusive
      = .ok (updateAt s (pathSegs (dirname p))
               (setChild (basename p)
                 ((Entry.dir n m sz dt es).withWrite now content)),
             [⟨.changed, p⟩]) := by
    simp only [writeFile, hc, entriesOf, hg', hce]
    rfl
  have hlk : lookupSegs (updateAt s (pathSegs (dirname p))
        (setChild (basename p) ((Entry.dir n m sz dt es).withWrite now content)))
        (pathSegs p)
      = some ((Entry.dir n m sz dt es).withWrite now content) := by
    rw [hdec,
        lookupSegs_updateAt_append (pathSegs (dirname p)) [basename p] s
          (.dir pn pm psz pdt pes) _ hl,
        lookupSegs_setChild_self]
  refine ⟨_, hw, ?_, ?_⟩
  · exact hlk
  · unfold readFile _lookup
    rw [hlk]
    simp [Entry.withWrite, Entry.data]

/-- Witness for C10: writing [3, 4] over the directory path /d of sampleD
succeeds, turns /d's size into 2 and keeps its child x. -/
theorem c10_witness :
    ∃ s', writeFile sampleD 8 "/d" [3, 4] true false
        = .ok (s', [⟨.changed, "/d"⟩])
      ∧ lookupSegs s' (pathSegs "/d")
          = some (.dir "d" 8 (2 : Int) (some [3, 4]) [("x", .file "x" 0 0 none)])
      ∧ readFile s' "/d" = .ok [3, 4] :=
  c10_write_directory sampleD sampleD 8 "/d" [3, 4] true false
    "d" 1 5 none [("x", .file "x" 0 0 none)] rfl rfl
    (by simp) rfl

/-! ### Claim C8 -/

/-- While every recording arrives strictly before the pending deadline, no
flush fires in between: the buffer accumulates everything and one flush at
the end delivers it all. -/
theorem runSched_pending (recs : List (Nat × List Ev)) (prev : Nat)
    (buf : List Ev) (h : gapsOK prev recs = true) :
    runSched ⟨buf, some (prev + quiet)⟩ recs
      = ([buf ++ (recs.map Prod.snd).flatten], ⟨[], none⟩) := by
  induction recs generalizing prev buf with
  | nil => simp [runSched]
  | cons r rest ih =>
    obtain ⟨t, evs⟩ := r
    rw [gapsOK] at h
    simp only [Bool.and_eq_true, decide_eq_true_eq] at h
    obtain ⟨⟨h1, h2⟩, h3⟩ := h
    have hnd : ¬(prev + quiet ≤ t) := by omega
    simp [runSched, deliverDue, hnd, fireSoon, ih t (buf ++ evs) h3,
      List.append_assoc]

/-- Claim C8 (confirmed): recordings that each arrive within the quiet
period opened by their predecessor are delivered as exactly one batch
holding every buffered event in emission order, after which the buffer is
empty and no flush is pending; moreover every recording reschedules the
flush a full quiet period from its own instant, cancelling the previous
schedule. -/
theorem c8_debounce_single_batch (t0 : Nat) (e0 : List Ev)
    (recs : List (Nat × List Ev)) (h : gapsOK t0 recs = true) :
    runSched ⟨[], none⟩ ((t0, e0) :: recs)
      = ([e0 ++ (recs.map Prod.snd).flatten], ⟨[], none⟩)
    ∧ ∀ (n : Notifier) (now : Nat) (evs : List Ev),
        (fireSoon n now evs).deadline = some (now + quiet) := by
  constructor
  · have hps := runSched_pending recs t0 e0 h
    simpa [runSched, deliverDue, fireSoon] using hps
  · intro n now evs
    rfl

/-- Witness for C8: three writes recorded at instants 0, 1, 2 (each within
the quiet period of 5) are delivered as one batch of six events in issuance
order, leaving an idle empty notifier. -/
theorem c8_witness :
    runSched ⟨[], none⟩
        [(0, [⟨.created, "/a"⟩, ⟨.changed, "/a"⟩]),
         (1, [⟨.created, "/b"⟩, ⟨.changed, "/b"⟩]),
         (2, [⟨.created, "/c"⟩, ⟨.changed, "/c"⟩])]
      = ([[⟨.created, "/a"⟩, ⟨.changed, "/a"⟩,
           ⟨.created, "/b"⟩, ⟨.changed, "/b"⟩,
           ⟨.created, "/c"⟩, ⟨.changed, "/c"⟩]], ⟨[], none⟩) :=
  (c8_debounce_single_batch 0 [⟨.created, "/a"⟩, ⟨.changed, "/a"⟩]
    [(1, [⟨.created, "/b"⟩, ⟨.changed, "/b"⟩]),
     (2, [⟨.created, "/c"⟩, ⟨.changed, "/c"⟩])] rfl).1

/-! ### Claim C4 -/

/-- Counterexample to Claim C4 as stated: "/f" and "/f/" are distinct path
strings resolving to the same entry; rename between them succeeds (and is a
net no-op), so stat of the source path afterwards still succeeds instead of
failing EntryNotFound. -/
theorem c4_cx :
    ("/f" : String) ≠ "/f/"
    ∧ rename sampleA "/f" "/f/"
        = .ok (sampleA, [⟨.deleted, "/f"⟩, ⟨.created, "/f/"⟩])
    ∧ stat sampleA "/f" = .ok (.file "f" 7 2 (some [1, 2])) := by
  refine ⟨?_, rfl, rfl⟩
  decide

/-- Boolean prefix test holds from a list to itself. -/
theorem isPre_refl (S : List String) : isPre S S = true := by
  simpa using isPre_append S []

/-- The two-update core of a successful rename when source and destination
parent coincide: the source basename is gone and the destination basename
holds the inserted node. -/
theorem rename_core_eq (s v : Entry) (D : List String) (na nb : String)
    (n0 : String) (m0 : Nat) (sz0 : Int) (dt0 : Option Bytes)
    (esa : List (String × Entry))
    (hlpa : lookupSegs s D = some (.dir n0 m0 sz0 dt0 esa))
    (hnanb : na ≠ nb) :
    lookupSegs (updateAt (updateAt s D (deleteChild na)) D (setChild nb v))
        (D ++ [na]) = none
    ∧ lookupSegs (updateAt (updateAt s D (deleteChild na)) D (setChild nb v))
        (D ++ [nb]) = some v := by
  have hs1D : lookupSegs (updateAt s D (deleteChild na)) D
      = some (deleteChild na (.dir n0 m0 sz0 dt0 esa)) :=
    lookupSegs_updateAt_self D s _ _ hlpa
  constructor
  · rw [lookupSegs_updateAt_append D [na] _ _ _ hs1D,
        lookupSegs_setChild_ne _ nb na _ _ hnanb]
    exact lookupSegs_deleteChild_self n0 m0 sz0 dt0 esa na
  · rw [lookupSegs_updateAt_append D [nb] _ _ _ hs1D]
    exact lookupSegs_setChild_self n0 m0 sz0 dt0 (mapDelete esa na) nb v

/-- The two-update core of a successful rename: deleting the source basename
at the source parent and inserting at the destination parent makes the
source segment path unresolvable and binds the inserted node at the
destination segment path, whenever neither full segment path is a prefix of
the other. -/
theorem rename_core (s pb v : Entry) (Da Db : List String) (na nb : String)
    (n0 : String) (m0 : Nat) (sz0 : Int) (dt0 : Option Bytes)
    (esa : List (String × Entry))
    (hlpa : lookupSegs s Da = some (.dir n0 m0 sz0 dt0 esa))
    (hlpb : lookupSegs s Db = some pb) (hdpb : pb.isDir = true)
    (hab : isPre (Da ++ [na]) (Db ++ [nb]) = false)
    (hba : isPre (Db ++ [nb]) (Da ++ [na]) = false) :
    lookupSegs (updateAt (updateAt s Da (deleteChild na)) Db (setChild nb v))
        (Da ++ [na]) = none
    ∧ lookupSegs (updateAt (updateAt s Da (deleteChild na)) Db (setChild nb v))
        (Db ++ [nb]) = some v := by
  obtain ⟨n1, m1, sz1, dt1, esb, rfl⟩ := isDir_exists pb hdpb
  have hs1Sa : lookupSegs (updateAt s Da (deleteChild na)) (Da ++ [na]) = none := by
    rw [lookupSegs_updateAt_append Da [na] s _ _ hlpa]
    exact lookupSegs_deleteChild_self n0 m0 sz0 dt0 esa na
  rcases isPre_trich Db Da with hpre | hpre | hdiv
  · obtain ⟨Y, hY⟩ := exists_of_isPre Db Da hpre
    cases Y with
    | nil =>
      have hDaDb : Da = Db := by simpa using hY
      subst hDaDb
      have hnanb : na ≠ nb := by
        intro hEq
        rw [hEq, isPre_refl] at hab
        simp at hab
      exact rename_core_eq s v Da na nb n0 m0 sz0 dt0 esa hlpa hnanb
    | cons y0 Y' =>
      have hs1Db : lookupSegs (updateAt s Da (deleteChild na)) Db
          = some (updateAt (.dir n1 m1 sz1 dt1 esb) (y0 :: Y') (deleteChild na)) := by
        rw [hY, lookupSegs_updateAt_pre Db (y0 :: Y') s (deleteChild na), hlpb]
        rfl
      by_cases hy0 : y0 = nb
      · exfalso
        subst hy0
        have hp1 : isPre (Db ++ [y0]) (Da ++ [na]) = true := by
          rw [hY]
          have h2 := isPre_append (Db ++ [y0]) (Y' ++ [na])
          simpa [List.append_assoc] using h2
        rw [hp1] at hba
        cases hba
      · have hsplit : Da ++ [na] = Db ++ (y0 :: (Y' ++ [na])) := by
          rw [hY]
          simp
        constructor
        · rw [hsplit,
              lookupSegs_updateAt_append Db (y0 :: (Y' ++ [na])) _ _ _ hs1Db,
              lookupSegs_setChild_ne _ nb y0 _ _ hy0]
          have h5 : lookupSegs (updateAt s Da (deleteChild na))
                (Db ++ (y0 :: (Y' ++ [na])))
              = lookupSegs (updateAt (.dir n1 m1 sz1 dt1 esb) (y0 :: Y')
                  (deleteChild na)) (y0 :: (Y' ++ [na])) := by
            rw [lookupSegs_append, hs1Db]
            rfl
          rw [← h5, ← hsplit]
          exact hs1Sa
        · rw [lookupSegs_updateAt_append Db [nb] _ _ _ hs1Db]
          exact lookupSegs_setChild_self n1 m1 sz1 dt1
            (mapUpdate esb y0 (fun c => updateAt c Y' (deleteChild na))) nb v
  · obtain ⟨Z, hZ⟩ := exists_of_isPre Da Db hpre
    cases Z with
    | nil =>
      have hDbDa : Db = Da := by simpa using hZ
      subst hDbDa
      have hnanb : na ≠ nb := by
        intro hEq
        rw [hEq, isPre_refl] at hab
        simp at hab
      exact rename_core_eq s v Db na nb n0 m0 sz0 dt0 esa hlpa hnanb
    | cons z0 Z' =>
      by_cases hz0 : z0 = na
      · exfalso
        subst hz0
        have hp1 : isPre (Da ++ [z0]) (Db ++ [nb]) = true := by
          have h1 : isPre (Da ++ [z0]) Db = true := by
            rw [hZ]
            have h2 := isPre_append (Da ++ [z0]) Z'
            simpa [List.append_assoc] using h2
          exact isPre_trans _ _ _ h1 (isPre_append Db [nb])
        rw [hp1] at hab
        cases hab
      · have hnaz0 : na ≠ z0 := fun h => hz0 h.symm
        have hs1Db : lookupSegs (updateAt s Da (deleteChild na)) Db
            = some (.dir n1 m1 sz1 dt1 esb) := by
          rw [hZ, lookupSegs_updateAt_append Da (z0 :: Z') s _ _ hlpa,
              lookupSegs_deleteChild_ne _ na z0 _ hz0]
          have h7 : lookupSegs s (Da ++ (z0 :: Z'))
              = lookupSegs (.dir n0 m0 sz0 dt0 esa) (z0 :: Z') := by
            rw [lookupSegs_append, hlpa]
            rfl
          rw [← h7, ← hZ]
          exact hlpb
        constructor
        · rw [hZ, lookupSegs_updateAt_diverge Da na z0 Z' [] _ _ hnaz0]
          exact hs1Sa
        · rw [lookupSegs_updateAt_append Db [nb] _ _ _ hs1Db]
          exact lookupSegs_setChild_self n1 m1 sz1 dt1 esb nb v
  · obtain ⟨P, x, S2, y, T2, hxy, hDb, hDa⟩ := hdiv
    have hs1Db : lookupSegs (updateAt s Da (deleteChild na)) Db
        = some (.dir n1 m1 sz1 dt1 esb) := by
      rw [hDa, hDb, lookupSegs_updateAt_diverge P x y T2 S2 s _ hxy, ← hDb]
      exact hlpb
    have hsplitC : Da ++ [na] = P ++ (y :: (T2 ++ [na])) := by
      rw [hDa]
      simp
    constructor
    · rw [hsplitC, hDb,
          lookupSegs_updateAt_diverge P y x S2 (T2 ++ [na]) _ _ (Ne.symm hxy),
          ← hsplitC]
      exact hs1Sa
    · rw [lookupSegs_updateAt_append Db [nb] _ _ _ hs1Db]
      exact lookupSegs_setChild_self n1 m1 sz1 dt1 esb nb v

/-- Claim C4 amended: for two paths whose segment lists decompose as parent
segments plus basename and are not prefixes of one another (so the paths
denote genuinely different, non-nested tree locations; in particular they
differ in more than separators and neither is the root), in a tree whose
child keys match entry names, rename succeeds, afterwards stat of the
source path fails EntryNotFound, and read of the destination returns
exactly what read of the source returned before: the moved entry keeps its
associated content. -/
theorem c4_rename_amended (s entry pa pb : Entry) (a b : String)
    (hwf : nameWF s = true)
    (hla : _lookup s a = .ok entry)
    (hca : _lookupDir s (dirname a) = .ok pa)
    (hcb : _lookupDir s (dirname b) = .ok pb)
    (hdeca : pathSegs a = pathSegs (dirname a) ++ [basename a])
    (hdecb : pathSegs b = pathSegs (dirname b) ++ [basename b])
    (hab : isPre (pathSegs a) (pathSegs b) = false)
    (hba : isPre (pathSegs b) (pathSegs a) = false) :
    ∃ s', rename s a b = .ok (s', [⟨.deleted, a⟩, ⟨.created, b⟩])
      ∧ stat s' a = .error .entryNotFound
      ∧ readFile s' b = .ok (entry.data.getD [])
      ∧ readFile s a = .ok (entry.data.getD []) := by
  obtain ⟨hlpa, hdpa⟩ := lookupDir_ok s (dirname a) pa hca
  obtain ⟨hlpb, hdpb⟩ := lookupDir_ok s (dirname b) pb hcb
  obtain ⟨n0, m0, sz0, dt0, esa, rfl⟩ := isDir_exists pa hdpa
  have hsa : lookupSegs s (pathSegs a) = some entry := (lookup_ok_iff s a entry).mp hla
  have hmem : mapGet esa (basename a) = some entry := by
    have hbind := hsa
    rw [hdeca, lookupSegs_append, hlpa] at hbind
    cases hmg : mapGet esa (basename a) with
    | none => simp [lookupSegs_dir_cons, hmg] at hbind
    | some c =>
      simp [lookupSegs_dir_cons, hmg, lookupSegs_nil] at hbind
      rw [hbind]
  have hname : entry.name = basename a := by
    have hwfpa : nameWF (.dir n0 m0 sz0 dt0 esa) = true :=
      nameWF_lookupSegs (pathSegs (dirname a)) s _ hwf hlpa
    rw [nameWF] at hwfpa
    exact (nameWFL_get esa (basename a) entry hwfpa hmem).1
  have hca' : _lookupContainer s a = .ok (.dir n0 m0 sz0 dt0 esa) := hca
  have hcb' : _lookupContainer s b = .ok pb := hcb
  have hw : rename s a b
      = .ok (updateAt (updateAt s (pathSegs (dirname a))
               (deleteChild (basename a))) (pathSegs (dirname b))
               (setChild (basename b) (entry.withName (basename b))),
             [⟨.deleted, a⟩, ⟨.created, b⟩]) := by
    simp only [rename, hla, hca', hcb', hname]
  have hab' : isPre (pathSegs (dirname a) ++ [basename a])
      (pathSegs (dirname b) ++ [basename b]) = false := by
    rw [← hdeca, ← hdecb]
    exact hab
  have hba' : isPre (pathSegs (dirname b) ++ [basename b])
      (pathSegs (dirname a) ++ [basename a]) = false := by
    rw [← hdeca, ← hdecb]
    exact hba
  have hcore := rename_core s pb (entry.withName (basename b))
    (pathSegs (dirname a)) (pathSegs (dirname b)) (basename a) (basename b)
    n0 m0 sz0 dt0 esa hlpa hlpb hdpb hab' hba'
  refine ⟨_, hw, ?_, ?_, ?_⟩
  · unfold stat _lookup
    rw [hdeca, hcore.1]
  · unfold readFile _lookup
    rw [hdecb, hcore.2]
    simp [withName_data]
  · unfold readFile _lookup
    rw [hsa]

/-- Witness for the amended C4: renaming /f to /g in sampleA moves the file
with its content. -/
theorem c4_witness :
    ∃ s', rename sampleA "/f" "/g"
        = .ok (s', [⟨.deleted, "/f"⟩, ⟨.created, "/g"⟩])
      ∧ stat s' "/f" = .error .entryNotFound
      ∧ readFile s' "/g" = .ok [1, 2]
      ∧ readFile sampleA "/f" = .ok [1, 2] :=
  c4_rename_amended sampleA (.file "f" 7 2 (some [1, 2])) sampleA sampleA
    "/f" "/g" (by simp [sampleA, nameWF, nameWFL, Entry.name])
    rfl rfl rfl rfl rfl rfl rfl
